import Mathlib

/-!
# Autonova RMM — verification of the control-plane specification

Shallow embedding of the Autonova RMM control plane: the AES-CBC envelope
codec (`cloud_server/sockets/agent_socket.py` and
`app_client/src/network/socket_manager.py`), the dispatcher-side command
store (`agent_socket.py`), the submit path (`cloud_server/api/commands.py`),
the agent-side command executor and frame emission (`socket_manager.py`),
the autonomous manager (`app_client/src/core/autonomous_manager.py`) and the
agent main loop (`app_client/src/main.py`).

Machine integers do not occur: all byte values are `Nat` below 256, checked
explicitly where it matters.  External library calls (the AES block
primitive) are abstracted as a block permutation; everything else (CBC
chaining, PKCS#7 padding, base64, the dict/JSON data model) is embedded
concretely.
-/

namespace Autonova

/-- A JSON-like value, the payload model for params, progress data and
command results (Python dicts flowing through the system). -/
inductive JVal where
  | js (s : String)
  | jb (b : Bool)
  | jn (n : Int)
  | jnull
  | jobj (fields : List (String × JVal))

/-- Python truthiness of a `JVal`, as used by `request.params.get('confirm')`
style checks. -/
def JVal.truthy : JVal → Bool
  | .js s => s != ""
  | .jb b => b
  | .jn n => n != 0
  | .jnull => false
  | .jobj fs => !fs.isEmpty

/-- Whether a `JVal` is a dict. -/
def JVal.isObj : JVal → Bool
  | .jobj _ => true
  | _ => false

/-! ## AutonomousManager (`app_client/src/core/autonomous_manager.py`) -/

/-- Priority levels for queued actions (`ActionPriority`). -/
inductive ActionPriority where
  | critical
  | high
  | medium
  | low
deriving DecidableEq

/-- Numeric value of a priority (`ActionPriority.value`). -/
def ActionPriority.val : ActionPriority → Nat
  | .critical => 1
  | .high => 2
  | .medium => 3
  | .low => 4

/-- One threat entry of a scan result (`scan_results["threats_found"]`);
fields are optional because the code reads them with `.get`. -/
structure Threat where
  ttype : Option String
  pid : Option Int
  name : Option String
  port : Option Int

/-- One issue entry of a scan result (`scan_results["issues_found"]`). -/
structure Issue where
  itype : Option String
  severity : Option String
  message : Option String

/-- A scan result as consumed by `analyze_and_decide`; `score` is optional
because the code reads `scan_results.get("score", 100)`. -/
structure ScanResult where
  score : Option Int
  threatsFound : List Threat
  issuesFound : List Issue

/-- A recommendation produced by `analyze_and_decide`; the optional
`pid`/`name`/`port` fields model the `params` sub-dict of the
`kill_process` / `block_connection` recommendations. -/
structure Recommendation where
  action : String
  priority : ActionPriority
  pid : Option Int := none
  name : Option String := none
  port : Option Int := none
  reason : String

/-- Recommendations derived from one threat entry
(the `for threat in threats` loop of `analyze_and_decide`). -/
def threatRecs (t : Threat) : List Recommendation :=
  let tt := t.ttype.getD "unknown"
  if tt = "suspicious_process" then
    [{ action := "kill_process", priority := .critical, pid := t.pid,
       name := t.name,
       reason := "Proceso sospechoso: " ++ (t.name.getD "None") }]
  else if tt = "suspicious_connection" then
    [{ action := "block_connection", priority := .critical, port := t.port,
       reason := "Conexión sospechosa en puerto " ++ toString (t.port.getD 0) }]
  else []

/-- Recommendations derived from one issue entry
(the `for issue in issues` loop of `analyze_and_decide`). -/
def issueRecs (i : Issue) : List Recommendation :=
  let sev := i.severity.getD "medium"
  let it := i.itype.getD "unknown"
  if it = "disk" ∧ sev = "high" then
    [{ action := "clean_disk", priority := .high,
       reason := i.message.getD "Disco casi lleno" }]
  else if it = "memory" ∧ sev = "high" then
    [{ action := "free_memory", priority := .high,
       reason := i.message.getD "Memoria casi llena" }]
  else if it = "security" then
    [{ action := "fix_security", priority := .critical,
       reason := i.message.getD "Problema de seguridad" }]
  else []

/-- `AutonomousManager.analyze_and_decide`: the pure decision function over a
scan result, returning recommendations in generation order (score rule
first, then threats, then issues). -/
def analyzeAndDecide (scan : ScanResult) : List Recommendation :=
  let score := scan.score.getD 100
  let scoreRecs : List Recommendation :=
    if score < 40 then
      [{ action := "full_repair", priority := .critical,
         reason := "Puntuación de salud muy baja: " ++ toString score ++ "/100" }]
    else if score < 60 then
      [{ action := "deep_clean", priority := .high,
         reason := "Puntuación de salud baja: " ++ toString score ++ "/100" }]
    else []
  scoreRecs ++ scan.threatsFound.flatMap threatRecs
    ++ scan.issuesFound.flatMap issueRecs

/-- A sync-queue item (`pending_sync` entries built by `queue_for_sync`). -/
structure SyncItem where
  stype : String
  data : JVal

/-- Agent connection states (`AgentState`). -/
inductive AgentState where
  | connected
  | disconnected
  | reconnecting
  | autonomous
deriving DecidableEq

/-- The autonomous manager state relevant to queue handling: the in-memory
queues, their persisted (on-disk) copies, the connection state and the retry
counter. -/
structure AMState where
  state : AgentState
  retryCount : Nat
  actionQueue : List JVal
  pendingSync : List SyncItem
  actionFile : List JVal
  syncFile : List SyncItem

/-- `_save_persisted_data`: rewrite both queue files wholesale from the
in-memory queues. -/
def savePersist (st : AMState) : AMState :=
  { st with actionFile := st.actionQueue, syncFile := st.pendingSync }

/-- `connection_restored`: set state CONNECTED, reset the retry counter,
best-effort send every pending sync item (each send may fail; the failure
is only logged), then clear the sync queue and persist.  Returns the new
state, the list of items that were attempted, and the collected send
errors. -/
def connectionRestored (send : SyncItem → Except String Unit) (st : AMState) :
    AMState × List SyncItem × List String :=
  let attempted := st.pendingSync
  let errors := attempted.filterMap fun it =>
    match send it with
    | .ok _ => none
    | .error e => some e
  let st1 : AMState := { st with state := .connected, retryCount := 0 }
  let st2 := savePersist { st1 with pendingSync := [] }
  (st2, attempted, errors)

/-! ## Agent main loop (`app_client/src/main.py`, `_main_loop`) -/

/-- The loop state of `AutonovaAgent._main_loop` that the reconnection
policy reads and writes. -/
structure LoopState where
  running : Bool
  offlineMode : Bool
  reconnectAttempts : Nat
deriving DecidableEq

/-- The delay computed in `_main_loop` before the `n`-th reconnection
attempt (`n = reconnect_attempts` after the increment):
`min(base_reconnect_delay * 2 ** min(n - 1, 5), max_reconnect_delay)`
with base 5 and cap 120. -/
def reconnectDelay (n : Nat) : Nat :=
  min (5 * 2 ^ (min (n - 1) 5)) 120

/-- One pass of `_main_loop` in the disconnected branch: increment the
attempt counter, compute the backoff delay, try to connect; on success
reset the counter and leave offline mode, on failure keep counting.
`running` is never touched: no attempt cap stops the loop. -/
def loopIterDisconnected (success : Bool) (st : LoopState) : LoopState × Nat :=
  let st1 : LoopState :=
    { st with offlineMode := true, reconnectAttempts := st.reconnectAttempts + 1 }
  let d := reconnectDelay st1.reconnectAttempts
  if success then
    ({ st1 with offlineMode := false, reconnectAttempts := 0 }, d)
  else (st1, d)

/-- `k` consecutive failing reconnection passes of the main loop. -/
def iterFails : Nat → LoopState → LoopState
  | 0, st => st
  | k + 1, st => iterFails k (loopIterDisconnected false st).1

/-! ## Dispatcher-side command store
(`cloud_server/sockets/agent_socket.py`: `pending_commands`, `on_result`,
`on_error`, `send_command_to_agent`) -/

/-- A parsed `result` frame as received by `on_result` (fields read with
`.get`, hence optional). -/
structure ResultMsg where
  commandId : Option String
  agentId : Option String
  success : Option Bool
  data : Option JVal

/-- A parsed `error` frame as received by `on_error`. -/
structure ErrorMsg where
  commandId : Option String
  error : Option String

/-- One entry of the `pending_commands` store. -/
structure CommandRec where
  agentId : String
  status : String
  progress : List JVal
  result : Option ResultMsg
  error : Option String

/-- The `pending_commands` dict: command id to record. -/
abbrev CmdStore := List (String × CommandRec)

/-- Dict update at a key (`pending_commands[command_id][...] = ...`). -/
def storeUpdate : CmdStore → String → (CommandRec → CommandRec) → CmdStore
  | [], _, _ => []
  | (k, v) :: rest, cid, f =>
    (if k = cid then (k, f v) else (k, v)) :: storeUpdate rest cid f

/-- The store mutation of `AgentNamespace.on_result`: if the command id is
known, store the full result message and set status `"completed"` —
unconditionally, with no check of the current status. -/
def onResult (store : CmdStore) (msg : ResultMsg) : CmdStore :=
  match msg.commandId with
  | none => store
  | some cid =>
    if (store.lookup cid).isSome then
      storeUpdate store cid fun c =>
        { c with result := some msg, status := "completed" }
    else store

/-- The store mutation of `AgentNamespace.on_error`: if the command id is
known, set status `"error"` and store the message — again with no check of
the current status. -/
def onError (store : CmdStore) (msg : ErrorMsg) : CmdStore :=
  match msg.commandId with
  | none => store
  | some cid =>
    if (store.lookup cid).isSome then
      storeUpdate store cid fun c =>
        { c with status := "error", error := msg.error }
    else store

/-! ## Submit path (`cloud_server/api/commands.py`, `send_command`, and
`cloud_server/sockets/agent_socket.py`, `get_agent_status`) -/

/-- One entry of the `connected_agents` registry. -/
structure AgentInfo where
  sid : Option String
  hostname : Option String
  username : Option String
  online : Bool
  lastHeartbeat : Option Int

/-- The `connected_agents` dict: agent id to session info. -/
abbrev AgentReg := List (String × AgentInfo)

/-- `settings.HEARTBEAT_TIMEOUT` (seconds). -/
def heartbeatTimeout : Int := 90

/-- `get_agent_status`: look the agent up and derive liveness — the stored
`online` flag is forced to false when the heartbeat age exceeds the
timeout.  `now` and heartbeats are second timestamps. -/
def getAgentStatus (agents : AgentReg) (now : Int) (aid : String) :
    Option AgentInfo :=
  match agents.lookup aid with
  | none => none
  | some info =>
    match info.lastHeartbeat with
    | some hb => if now - hb > heartbeatTimeout then some { info with online := false }
                 else some info
    | none => some info

/-- The command-type allow-list of `send_command` (`valid_commands`). -/
def validCommands : List String :=
  ["health_check", "deep_clean", "sys_fix", "full_optimize", "self_destruct",
   "view_processes", "analyze_disk", "force_delete", "clean_registry",
   "speed_up_boot", "network_reset", "generate_report",
   "list_programs", "force_uninstall", "kill_process",
   "browse_files", "view_downloads", "view_recycle_bin", "delete_file",
   "scan_browser_history", "scan_threats", "scan_network"]

/-- The command record built by `send_command` before transmission. -/
structure DispatchCommand where
  id : String
  ctype : String
  params : List (String × JVal)
  issuedBy : String

/-- Outcome of the `send_command` endpoint: the three rejection branches
(404 agent unknown, 400 agent offline, 400 invalid type, 400 missing
self-destruct confirmation) or acceptance with the created command. -/
inductive SubmitOutcome where
  | agentNotFound
  | agentOffline
  | invalidCommand
  | confirmRequired
  | accepted (cmd : DispatchCommand)

/-- `send_command` (`cloud_server/api/commands.py`): validation order is
agent existence, then the stored `online` flag (heartbeat age is not
consulted here), then the allow-list, then the self-destruct confirmation;
only then is a command created.  `freshId` stands for the generated
`cmd_<uuid>` id. -/
def sendCommand (agents : AgentReg) (agentId cmdType : String)
    (params : List (String × JVal)) (issuedBy freshId : String) : SubmitOutcome :=
  match agents.lookup agentId with
  | none => .agentNotFound
  | some info =>
    if !info.online then .agentOffline
    else if !(validCommands.contains cmdType) then .invalidCommand
    else if cmdType = "self_destruct"
        && !(((params.lookup "confirm").getD .jnull).truthy) then .confirmRequired
    else .accepted { id := freshId, ctype := cmdType, params := params,
                     issuedBy := issuedBy }

/-! ## Agent-side command executor and frame emission
(`app_client/src/network/socket_manager.py`: `CommandExecutor.execute`,
`SocketManager.send_progress` / `send_response` / `send_error`, and the
`on_command` handler) -/

/-- An inbound command as parsed by `on_command` (fields read with `.get`). -/
structure AgentCommand where
  cid : Option String
  ctype : Option String
  params : List (String × JVal)

/-- A wire frame built by the agent's send helpers. -/
structure Frame where
  commandId : Option String
  agentId : String
  ftype : String
  success : Option Bool
  data : Option JVal
  errMsg : Option String

/-- `SocketManager.send_progress`: a `progress` frame. -/
def mkProgressFrame (aid : String) (cid : Option String) (d : JVal) : Frame :=
  { commandId := cid, agentId := aid, ftype := "progress", success := none,
    data := some d, errMsg := none }

/-- `SocketManager.send_response`: a `result` frame, `success` hard-coded
to `true` whatever the payload holds. -/
def mkResultFrame (aid : String) (cid : Option String) (v : JVal) : Frame :=
  { commandId := cid, agentId := aid, ftype := "result", success := some true,
    data := some v, errMsg := none }

/-- `SocketManager.send_error`: an `error` frame with `success: false`. -/
def mkErrorFrame (aid : String) (cid : Option String) (m : String) : Frame :=
  { commandId := cid, agentId := aid, ftype := "error", success := some false,
    data := none, errMsg := some m }

/-- A frame is terminal when it is a `result` or `error` frame. -/
def isTerminal (f : Frame) : Bool :=
  f.ftype == "result" || f.ftype == "error"

/-- Outcome of running a Python callable: a returned value or a raised
exception carrying its message. -/
inductive ExecOutcome where
  | ok (v : JVal)
  | raises (msg : String)

/-- A collaborator model: for each command type, the progress payloads the
branch emits through the callback followed by the collaborator's outcome
(return or raise).  This stands for `run_full_scan`, `run_deep_clean`,
`run_sys_fix`, `list_processes`, `analyze_disk`, `generate_report` and the
`self_destruct` script helpers, which live outside the executor. -/
abbrev Collab := String → List JVal × ExecOutcome

/-- The command types whose branch of `CommandExecutor.execute` calls
straight into a collaborator. -/
def directTypes : List String :=
  ["health_check", "deep_clean", "sys_fix", "full_optimize",
   "view_processes", "analyze_disk", "force_delete", "clean_registry",
   "speed_up_boot", "network_reset", "generate_report", "self_destruct",
   "list_programs"]

/-- The command type as a display string: `None` prints as `"None"` in the
`f"Comando desconocido: {cmd_type}"` fallback. -/
def cmdTypeStr (cmd : AgentCommand) : String :=
  match cmd.ctype with
  | some t => t
  | none => "None"

/-- A string parameter read with `params.get(key, "")`. -/
def getStrParam (params : List (String × JVal)) (key : String) : String :=
  match params.lookup key with
  | some (.js s) => s
  | _ => ""

/-- The unknown-command fallback dict of `execute`. -/
def unknownDict (t : String) : JVal :=
  .jobj [("error", .js ("Comando desconocido: " ++ t))]

/-- The missing-parameter dict of the `force_uninstall` / `kill_process`
branches. -/
def missingParamDict (m : String) : JVal :=
  .jobj [("success", .jb false), ("error", .js m)]

/-- The dict returned by `execute`'s `except` clause:
`{"error": str(e), "success": False}`. -/
def caughtDict (m : String) : JVal :=
  .jobj [("error", .js m), ("success", .jb false)]

/-- The `try`-block body of `CommandExecutor.execute`: dispatch on the
command type; `force_uninstall` and `kill_process` first check their
parameter and return an error dict without calling a collaborator when it
is missing; any unmatched type falls through to the unknown-command dict.
Returns the emitted progress payloads and the body's outcome. -/
def executeBody (collab : Collab) (cmd : AgentCommand) :
    List JVal × ExecOutcome :=
  let t := cmdTypeStr cmd
  if directTypes.contains t then collab t
  else if t = "force_uninstall" then
    if getStrParam cmd.params "program_name" = "" then
      ([], .ok (missingParamDict "No se especificó el programa"))
    else collab t
  else if t = "kill_process" then
    if getStrParam cmd.params "process_name" = "" then
      ([], .ok (missingParamDict "No se especificó el proceso"))
    else collab t
  else ([], .ok (unknownDict t))

/-- `CommandExecutor.execute`: the body wrapped in
`try ... except Exception as e: return {"error": str(e), "success": False}`
— a raise from the body becomes a normally returned dict. -/
def executeRun (collab : Collab) (cmd : AgentCommand) :
    List JVal × ExecOutcome :=
  match executeBody collab cmd with
  | (ps, .ok v) => (ps, .ok v)
  | (ps, .raises m) => (ps, .ok (caughtDict m))

/-- The `on_command` handler: run the executor and send its return value
back with `send_response` (a `result` frame); only if the handler call
itself raises is `send_error` used.  Returns the frames emitted for this
command, progress first. -/
def onCommand (collab : Collab) (aid : String) (cmd : AgentCommand) :
    List Frame :=
  match executeRun collab cmd with
  | (ps, .ok v) => ps.map (mkProgressFrame aid cmd.cid) ++ [mkResultFrame aid cmd.cid v]
  | (ps, .raises m) => ps.map (mkProgressFrame aid cmd.cid) ++ [mkErrorFrame aid cmd.cid m]

/-! ## The envelope codec (`AESCipher` in
`app_client/src/network/socket_manager.py` and
`cloud_server/sockets/agent_socket.py`)

Plaintext strings are modelled by their UTF-8 byte sequences (`List Nat`,
each element below 256).  The AES block primitive (`Crypto.Cipher.AES`)
is a library call, abstracted as a 16-byte block permutation; CBC
chaining, PKCS#7 padding (`Crypto.Util.Padding.pad`/`unpad`) and base64
are embedded concretely. -/

/-- Base64 alphabet: sextet value to ASCII code. -/
def echar (s : Nat) : Nat :=
  if s < 26 then 65 + s
  else if s < 52 then 71 + s
  else if s < 62 then s - 4
  else if s = 62 then 43
  else 47

/-- Base64 alphabet inverse: ASCII code to sextet value (0 on non-alphabet
input). -/
def dchar (c : Nat) : Nat :=
  if 65 ≤ c ∧ c ≤ 90 then c - 65
  else if 97 ≤ c ∧ c ≤ 122 then c - 71
  else if 48 ≤ c ∧ c ≤ 57 then c + 4
  else if c = 43 then 62
  else if c = 47 then 63
  else 0

/-- `base64.b64encode` on a byte list, producing the ASCII codes of the
base64 text (with `=` padding, code 61). -/
def b64encodeBytes : List Nat → List Nat
  | [] => []
  | [b0] => [echar (b0 / 4), echar (b0 % 4 * 16), 61, 61]
  | [b0, b1] => [echar (b0 / 4), echar (b0 % 4 * 16 + b1 / 16),
                 echar (b1 % 16 * 4), 61]
  | b0 :: b1 :: b2 :: rest =>
    echar (b0 / 4) :: echar (b0 % 4 * 16 + b1 / 16)
      :: echar (b1 % 16 * 4 + b2 / 64) :: echar (b2 % 64)
      :: b64encodeBytes rest

/-- `base64.b64decode` on the ASCII codes of a base64 text. -/
def b64decodeBytes : List Nat → List Nat
  | c0 :: c1 :: c2 :: c3 :: rest =>
    if c2 = 61 then [dchar c0 * 4 + dchar c1 / 16]
    else if c3 = 61 then
      [dchar c0 * 4 + dchar c1 / 16, dchar c1 % 16 * 16 + dchar c2 / 4]
    else (dchar c0 * 4 + dchar c1 / 16) :: (dchar c1 % 16 * 16 + dchar c2 / 4)
      :: (dchar c2 % 4 * 64 + dchar c3) :: b64decodeBytes rest
  | _ => []

/-- `Crypto.Util.Padding.pad` with PKCS#7 and block size 16: append
`16 - len % 16` copies of that count. -/
def padPKCS7 (l : List Nat) : List Nat :=
  let n := 16 - l.length % 16
  l ++ List.replicate n n

/-- `Crypto.Util.Padding.unpad` with PKCS#7 and block size 16: reject
empty or non-block-aligned input, read the count from the last byte,
check it is in range and that the trailing bytes all equal it. -/
def unpadPKCS7 (l : List Nat) : Option (List Nat) :=
  if l.length = 0 then none
  else if l.length % 16 ≠ 0 then none
  else
    let n := (l.getLast?).getD 0
    if n < 1 ∨ 16 < n then none
    else if l.drop (l.length - n) = List.replicate n n then
      some (l.take (l.length - n))
    else none

/-- Byte-wise XOR of two equal-length byte lists. -/
def xorBytes (a b : List Nat) : List Nat :=
  List.zipWith (fun x y => x ^^^ y) a b

/-- Split a byte list into 16-byte blocks (fuelled so that it reduces by
plain evaluation). -/
def chunk16 : Nat → List Nat → List (List Nat)
  | 0, _ => []
  | _ + 1, [] => []
  | fuel + 1, l => l.take 16 :: chunk16 fuel (l.drop 16)

/-- The 16-byte blocks of a byte list. -/
def toBlocks (l : List Nat) : List (List Nat) :=
  chunk16 l.length l

/-- Concatenate blocks back into a byte list. -/
def concatBlocks : List (List Nat) → List Nat
  | [] => []
  | b :: bs => b ++ concatBlocks bs

/-- CBC encryption over a block primitive `E`: each plaintext block is
XORed with the previous ciphertext block (the IV first) before `E`. -/
def cbcEnc (E : List Nat → List Nat) : List Nat → List (List Nat) → List (List Nat)
  | _, [] => []
  | prev, b :: bs =>
    let c := E (xorBytes b prev)
    c :: cbcEnc E c bs

/-- CBC decryption over a block primitive `D`. -/
def cbcDec (D : List Nat → List Nat) : List Nat → List (List Nat) → List (List Nat)
  | _, [] => []
  | prev, c :: cs => xorBytes (D c) prev :: cbcDec D c cs

/-- The abstract AES block primitive under the fixed derived key: a pair
of maps on 16-byte blocks where decryption inverts encryption, encryption
preserves the block length and keeps bytes below 256. -/
structure BlockCipher where
  enc : List Nat → List Nat
  dec : List Nat → List Nat
  enc_len : ∀ b : List Nat, b.length = 16 → (enc b).length = 16
  enc_lt : ∀ b : List Nat, b.length = 16 → (∀ x ∈ b, x < 256) →
    ∀ x ∈ enc b, x < 256
  dec_enc : ∀ b : List Nat, b.length = 16 → dec (enc b) = b

/-- `AESCipher.encrypt`: pad, CBC-encrypt under the fresh 16-byte `iv`,
prepend the IV and base64-encode.  The IV, drawn by `get_random_bytes`
in the source, is an explicit argument here. -/
def encryptE (E : List Nat → List Nat) (iv m : List Nat) : List Nat :=
  b64encodeBytes (iv ++ concatBlocks (cbcEnc E iv (toBlocks (padPKCS7 m))))

/-- The byte pipeline of `AESCipher.decrypt`, up to but not including the
final `decrypted.decode('utf-8')`: base64-decode, split off the 16-byte
IV, CBC-decrypt the remainder and strip the padding.  `none` models the
`CryptoError` outcomes of this part (short input, misaligned ciphertext,
bad padding); the UTF-8 decode step is `decryptStr`. -/
def decryptE (D : List Nat → List Nat) (env : List Nat) : Option (List Nat) :=
  let raw := b64decodeBytes env
  if raw.length < 16 then none
  else
    let iv := raw.take 16
    let ct := raw.drop 16
    if ct.length % 16 ≠ 0 then none
    else unpadPKCS7 (concatBlocks (cbcDec D iv (toBlocks ct)))

/-- The identity block permutation, a degenerate `BlockCipher` used to
evaluate the codec theorems on concrete inputs. -/
def idCipher : BlockCipher where
  enc := id
  dec := id
  enc_len := fun _ h => h
  enc_lt := fun _ _ h => h
  dec_enc := fun _ _ => rfl

/-- Overwrite byte `k` of a byte list with its XOR with `v` (for `v` a
power of two: flip one bit of that byte). -/
def flipByte (k v : Nat) (l : List Nat) : List Nat :=
  l.set k ((l.getD k 0) ^^^ v)

/-- A UTF-8 continuation byte (`0x80..0xBF`). -/
def isCont (b : Nat) : Bool :=
  128 ≤ b && b ≤ 191

/-- Strict UTF-8 validity of a byte sequence, the success condition of
Python's `bytes.decode('utf-8')`: ASCII, and 2-, 3- and 4-byte sequences
with the standard continuation ranges, rejecting overlong encodings,
surrogates and code points above `U+10FFFF`. -/
def utf8Valid : List Nat → Bool
  | [] => true
  | b :: rest =>
    if b < 128 then utf8Valid rest
    else if 194 ≤ b ∧ b ≤ 223 then
      match rest with
      | c1 :: rest2 => isCont c1 && utf8Valid rest2
      | [] => false
    else if b = 224 then
      match rest with
      | c1 :: c2 :: rest2 =>
        (160 ≤ c1 && c1 ≤ 191) && (isCont c2 && utf8Valid rest2)
      | _ => false
    else if 225 ≤ b ∧ b ≤ 236 then
      match rest with
      | c1 :: c2 :: rest2 => isCont c1 && (isCont c2 && utf8Valid rest2)
      | _ => false
    else if b = 237 then
      match rest with
      | c1 :: c2 :: rest2 =>
        (128 ≤ c1 && c1 ≤ 159) && (isCont c2 && utf8Valid rest2)
      | _ => false
    else if 238 ≤ b ∧ b ≤ 239 then
      match rest with
      | c1 :: c2 :: rest2 => isCont c1 && (isCont c2 && utf8Valid rest2)
      | _ => false
    else if b = 240 then
      match rest with
      | c1 :: c2 :: c3 :: rest2 =>
        (144 ≤ c1 && c1 ≤ 191) && (isCont c2 && (isCont c3 && utf8Valid rest2))
      | _ => false
    else if 241 ≤ b ∧ b ≤ 243 then
      match rest with
      | c1 :: c2 :: c3 :: rest2 =>
        isCont c1 && (isCont c2 && (isCont c3 && utf8Valid rest2))
      | _ => false
    else if b = 244 then
      match rest with
      | c1 :: c2 :: c3 :: rest2 =>
        (128 ≤ c1 && c1 ≤ 143) && (isCont c2 && (isCont c3 && utf8Valid rest2))
      | _ => false
    else false

/-- `AESCipher.decrypt` in full: the byte pipeline `decryptE` followed by
the final `decrypted.decode('utf-8')`, modelled as the UTF-8 validity
check (valid bytes decode to exactly the string they encode, so the
result stays in byte form; invalid bytes raise `UnicodeDecodeError`,
modelled as `none`). -/
def decryptStr (D : List Nat → List Nat) (env : List Nat) : Option (List Nat) :=
  match decryptE D env with
  | none => none
  | some bs => if utf8Valid bs then some bs else none

/-! ## Helper lemmas -/

/-- Every recommendation a threat entry generates is `kill_process` or
`block_connection`. -/
theorem threatRecs_action (t : Threat) :
    ∀ r ∈ threatRecs t, r.action = "kill_process" ∨ r.action = "block_connection" := by
  intro r hr
  by_cases h1 : t.ttype.getD "unknown" = "suspicious_process"
  · simp [threatRecs, h1] at hr
    subst hr
    exact Or.inl rfl
  · by_cases h2 : t.ttype.getD "unknown" = "suspicious_connection"
    · simp [threatRecs, h1, h2] at hr
      subst hr
      exact Or.inr rfl
    · simp [threatRecs, h1, h2] at hr

/-- Every recommendation an issue entry generates is `clean_disk`,
`free_memory` or `fix_security`. -/
theorem issueRecs_action (i : Issue) :
    ∀ r ∈ issueRecs i, r.action = "clean_disk" ∨ r.action = "free_memory"
      ∨ r.action = "fix_security" := by
  intro r hr
  by_cases h1 : i.itype.getD "unknown" = "disk" ∧ i.severity.getD "medium" = "high"
  · simp [issueRecs, h1] at hr
    subst hr
    exact Or.inl rfl
  · by_cases h2 : i.itype.getD "unknown" = "memory" ∧ i.severity.getD "medium" = "high"
    · simp [issueRecs, h1, h2] at hr
      subst hr
      exact Or.inr (Or.inl rfl)
    · by_cases h3 : i.itype.getD "unknown" = "security"
      · simp [issueRecs, h1, h2, h3] at hr
        subst hr
        exact Or.inr (Or.inr rfl)
      · simp [issueRecs, h1, h2, h3] at hr

/-! ## Claims C6, C7, C8 -/

/-- C6: `analyze_and_decide` — for every scan result, `score < 40` yields a
`full_repair` recommendation at priority CRITICAL; else `score < 60` yields
`deep_clean` at HIGH and no `full_repair` at all (the two score branches are
mutually exclusive); and for `score ≥ 60` with no threats and no issues the
recommendation list is empty. -/
theorem claim6_analyze_and_decide (scan : ScanResult) :
    ((scan.score.getD 100 < 40) →
      ∃ r ∈ analyzeAndDecide scan, r.action = "full_repair" ∧ r.priority = .critical)
  ∧ ((¬ scan.score.getD 100 < 40) → scan.score.getD 100 < 60 →
      (∃ r ∈ analyzeAndDecide scan, r.action = "deep_clean" ∧ r.priority = .high)
      ∧ (∀ r ∈ analyzeAndDecide scan, r.action ≠ "full_repair"))
  ∧ (60 ≤ scan.score.getD 100 → scan.threatsFound = [] → scan.issuesFound = [] →
      analyzeAndDecide scan = []) := by
  refine ⟨?_, ?_, ?_⟩
  · intro h
    refine ⟨{ action := "full_repair", priority := .critical,
              reason := "Puntuación de salud muy baja: "
                ++ toString (scan.score.getD 100) ++ "/100" }, ?_, rfl, rfl⟩
    simp [analyzeAndDecide, h]
  · intro h1 h2
    constructor
    · refine ⟨{ action := "deep_clean", priority := .high,
                reason := "Puntuación de salud baja: "
                  ++ toString (scan.score.getD 100) ++ "/100" }, ?_, rfl, rfl⟩
      simp [analyzeAndDecide, h1, h2]
    · intro r hr
      simp only [analyzeAndDecide, if_neg h1, if_pos h2, List.mem_append,
        List.mem_cons, List.not_mem_nil, or_false, List.mem_flatMap] at hr
      rcases hr with (rfl | ⟨t, _, hrt⟩) | ⟨i, _, hri⟩
      · simp
      · rcases threatRecs_action t r hrt with h | h <;> simp [h]
      · rcases issueRecs_action i r hri with h | h | h <;> simp [h]
  · intro h1 h2 h3
    have h4 : ¬ scan.score.getD 100 < 40 := by omega
    have h5 : ¬ scan.score.getD 100 < 60 := by omega
    simp [analyzeAndDecide, h2, h3, h4, h5]

/-- C6 witness: the three branches evaluated at the spec's example inputs
(score 30, score 50, score 90 with empty threat and issue lists). -/
theorem claim6_witness :
    (∃ r ∈ analyzeAndDecide ⟨some 30, [], []⟩,
      r.action = "full_repair" ∧ r.priority = .critical)
  ∧ ((∃ r ∈ analyzeAndDecide ⟨some 50, [], []⟩,
        r.action = "deep_clean" ∧ r.priority = .high)
      ∧ ∀ r ∈ analyzeAndDecide ⟨some 50, [], []⟩, r.action ≠ "full_repair")
  ∧ analyzeAndDecide ⟨some 90, [], []⟩ = [] :=
  ⟨(claim6_analyze_and_decide ⟨some 30, [], []⟩).1 (by decide),
   (claim6_analyze_and_decide ⟨some 50, [], []⟩).2.1 (by decide) (by decide),
   (claim6_analyze_and_decide ⟨some 90, [], []⟩).2.2 (by decide) rfl rfl⟩

/-- C7: after `connection_restored` the sync queue is empty and the empty
queue is the persisted content, whatever each per-item send returned;
every previously pending item was attempted, the state is CONNECTED and
the retry counter is reset. -/
theorem claim7_connection_restored_clears_sync
    (send : SyncItem → Except String Unit) (st : AMState) :
    (connectionRestored send st).1.pendingSync = []
  ∧ (connectionRestored send st).1.syncFile = []
  ∧ (connectionRestored send st).2.1 = st.pendingSync
  ∧ (connectionRestored send st).1.state = .connected
  ∧ (connectionRestored send st).1.retryCount = 0 := by
  refine ⟨rfl, rfl, rfl, rfl, rfl⟩

/-- C8: the main loop's backoff delay for the `n`-th consecutive failed
attempt equals `min(5·2^(n-1), 120)` for every `n ≥ 1`; the attempt count
grows without bound under consecutive failures while `running` is never
cleared by the retry logic; a successful reconnection resets the counter
to 0 and leaves offline mode. -/
theorem claim8_backoff :
    (∀ n : Nat, 1 ≤ n → reconnectDelay n = min (5 * 2 ^ (n - 1)) 120)
  ∧ (∀ (k : Nat) (st : LoopState),
      (iterFails k st).reconnectAttempts = st.reconnectAttempts + k
      ∧ (iterFails k st).running = st.running)
  ∧ (∀ st : LoopState, (loopIterDisconnected true st).1.reconnectAttempts = 0
      ∧ (loopIterDisconnected true st).1.offlineMode = false) := by
  refine ⟨?_, ?_, ?_⟩
  · intro n hn
    rcases le_or_lt (n - 1) 5 with h | h
    · rw [reconnectDelay, min_eq_left h]
    · have hmin : min (n - 1) 5 = 5 := min_eq_right h.le
      have h2 : (64 : Nat) ≤ 2 ^ (n - 1) := by
        calc (64 : Nat) = 2 ^ 6 := by norm_num
          _ ≤ 2 ^ (n - 1) := Nat.pow_le_pow_right (by norm_num) (by omega)
      rw [reconnectDelay, hmin]
      have h3 : (2 : Nat) ^ 5 = 32 := by norm_num
      rw [h3]
      omega
  · intro k
    induction k with
    | zero => intro st; exact ⟨rfl, rfl⟩
    | succ k ih =>
      intro st
      have hstep : (loopIterDisconnected false st).1
          = { st with offlineMode := true,
                      reconnectAttempts := st.reconnectAttempts + 1 } := rfl
      constructor
      · show (iterFails k (loopIterDisconnected false st).1).reconnectAttempts = _
        rw [hstep, (ih _).1]
        show st.reconnectAttempts + 1 + k = st.reconnectAttempts + (k + 1)
        omega
      · show (iterFails k (loopIterDisconnected false st).1).running = _
        rw [hstep, (ih _).2]
  · intro st
    exact ⟨rfl, rfl⟩

/-- C8 witness: the backoff formula and the loop-state facts evaluated at
concrete inputs (third failed attempt, then five consecutive failures from
a fresh state, then a successful reconnection). -/
theorem claim8_witness :
    reconnectDelay 3 = min (5 * 2 ^ 2) 120
  ∧ (iterFails 5 ⟨true, false, 0⟩).reconnectAttempts = 0 + 5
  ∧ (loopIterDisconnected true ⟨true, true, 7⟩).1.reconnectAttempts = 0 :=
  ⟨claim8_backoff.1 3 (by decide),
   (claim8_backoff.2.1 5 ⟨true, false, 0⟩).1,
   (claim8_backoff.2.2 ⟨true, true, 7⟩).1⟩

/-- Looking up a key after a dict update at that key applies the update to
the stored record. -/
theorem storeUpdate_lookup (store : CmdStore) (cid : String)
    (f : CommandRec → CommandRec) :
    (storeUpdate store cid f).lookup cid = (store.lookup cid).map f := by
  induction store with
  | nil => rfl
  | cons p rest ih =>
    rcases p with ⟨k, v⟩
    by_cases h : k = cid
    · subst h
      show List.lookup k ((if k = k then (k, f v) else (k, v)) :: storeUpdate rest k f)
        = Option.map f (List.lookup k ((k, v) :: rest))
      rw [if_pos rfl]
      simp [List.lookup]
    · have h2 : ¬ cid = k := fun hh => h hh.symm
      show List.lookup cid ((if k = cid then (k, f v) else (k, v)) :: storeUpdate rest cid f)
        = Option.map f (List.lookup cid ((k, v) :: rest))
      rw [if_neg h]
      have h3 : (cid == k) = false := beq_eq_false_iff_ne.mpr h2
      simp [List.lookup, h3, ih]

/-! ## Claim C1 -/

/-- C1 counterexample: a command that has reached the terminal status
`"error"` is overwritten to `"completed"` by a later `on_result` for the
same id — the second terminal write is not a no-op. -/
theorem claim1_counterexample :
    (((onResult
        (onError [("c1", ⟨"a1", "sent", [], none, none⟩)]
          ⟨some "c1", some "boom"⟩)
        ⟨some "c1", some "a1", some true, none⟩).lookup "c1").map
        CommandRec.status = some "completed")
  ∧ (((onError [("c1", ⟨"a1", "sent", [], none, none⟩)]
        ⟨some "c1", some "boom"⟩).lookup "c1").map CommandRec.status
        = some "error")
  ∧ ("completed" : String) ≠ "error" :=
  ⟨rfl, rfl, by decide⟩

/-- C1 amended: `on_result` and `on_error` finalize a known command id
unconditionally — they overwrite the stored status, result and error
whatever the current status is, so a second terminal write for the same id
replaces the first (an error-status command later becomes completed when a
result arrives); only unknown ids leave the store unchanged. -/
theorem claim1_amended_terminal_writes_overwrite
    (store : CmdStore) (cid : String) (rec : CommandRec)
    (rmsg : ResultMsg) (emsg : ErrorMsg)
    (hr : rmsg.commandId = some cid) (he : emsg.commandId = some cid)
    (hlook : store.lookup cid = some rec) :
    (onResult store rmsg).lookup cid
      = some { rec with status := "completed", result := some rmsg }
  ∧ (onError store emsg).lookup cid
      = some { rec with status := "error", error := emsg.error }
  ∧ (∀ rmsg2 : ResultMsg, rmsg2.commandId = none → onResult store rmsg2 = store) := by
  refine ⟨?_, ?_, ?_⟩
  · rw [onResult, hr]
    simp [hlook, storeUpdate_lookup]
  · rw [onError, he]
    simp [hlook, storeUpdate_lookup]
  · intro rmsg2 h2
    rw [onResult, h2]

/-- C1 witness: the amended overwrite behavior evaluated on a one-command
store holding an error-status record. -/
theorem claim1_witness :
    ((onResult [("c9", ⟨"a1", "error", [], none, some "boom"⟩)]
        ⟨some "c9", some "a1", some true, none⟩).lookup "c9"
      = some ⟨"a1", "completed", [], some ⟨some "c9", some "a1", some true, none⟩,
              some "boom"⟩)
  ∧ ((onError [("c9", ⟨"a1", "error", [], none, some "boom"⟩)]
        ⟨some "c9", some "late"⟩).lookup "c9"
      = some ⟨"a1", "error", [], none, some "late"⟩)
  ∧ (∀ rmsg2 : ResultMsg, rmsg2.commandId = none →
      onResult [("c9", ⟨"a1", "error", [], none, some "boom"⟩)] rmsg2
        = [("c9", ⟨"a1", "error", [], none, some "boom"⟩)]) :=
  claim1_amended_terminal_writes_overwrite
    [("c9", ⟨"a1", "error", [], none, some "boom"⟩)] "c9"
    ⟨"a1", "error", [], none, some "boom"⟩
    ⟨some "c9", some "a1", some true, none⟩ ⟨some "c9", some "late"⟩
    rfl rfl rfl

/-! ## Claim C5 -/

/-- C5 counterexample: a known agent whose stored `online` flag is still
true but whose last heartbeat is 1000 seconds old (far beyond the
90-second timeout, so `get_agent_status` derives offline) is nevertheless
accepted by `send_command` — the submit path never consults heartbeat age,
contradicting the claim that a stale-heartbeat agent fails with
`AgentOffline`. -/
theorem claim5_counterexample :
    (sendCommand [("a1", ⟨some "s1", none, none, true, some 0⟩)]
        "a1" "health_check" [] "admin" "cmd_1"
      = .accepted ⟨"cmd_1", "health_check", [], "admin"⟩)
  ∧ ((getAgentStatus [("a1", ⟨some "s1", none, none, true, some 0⟩)] 1000
        "a1").map AgentInfo.online = some false) :=
  ⟨rfl, rfl⟩

/-- C5 amended: `send_command` fails with `AgentNotFound` when no session
exists for the agent id and with `AgentOffline` when the stored `online`
flag is false; when the flag is true the submit is never rejected for
liveness, whatever the heartbeat age (the 90-second staleness check lives
only in `get_agent_status`); in both failure cases no command is created. -/
theorem claim5_amended_submit_checks_flag_only
    (agents : AgentReg) (aid ctype : String) (params : List (String × JVal))
    (user fid : String) :
    (agents.lookup aid = none →
      sendCommand agents aid ctype params user fid = .agentNotFound)
  ∧ (∀ info : AgentInfo, agents.lookup aid = some info → info.online = false →
      sendCommand agents aid ctype params user fid = .agentOffline)
  ∧ (∀ info : AgentInfo, agents.lookup aid = some info → info.online = true →
      sendCommand agents aid ctype params user fid ≠ .agentOffline
      ∧ sendCommand agents aid ctype params user fid ≠ .agentNotFound) := by
  refine ⟨?_, ?_, ?_⟩
  · intro h
    rw [sendCommand, h]
  · intro info h hon
    rw [sendCommand, h]
    simp [hon]
  · intro info h hon
    rw [sendCommand, h]
    simp only [hon, Bool.not_true, Bool.false_eq_true, if_false]
    constructor
    · split
      · simp
      · split
        · simp
        · simp
    · split
      · simp
      · split
        · simp
        · simp

/-- C5 witness: the amended statement evaluated on an empty registry, an
offline agent and an online agent. -/
theorem claim5_witness :
    (sendCommand [] "a1" "health_check" [] "admin" "cmd_1" = .agentNotFound)
  ∧ (sendCommand [("a2", ⟨some "s2", none, none, false, some 0⟩)]
        "a2" "health_check" [] "admin" "cmd_2" = .agentOffline)
  ∧ (sendCommand [("a3", ⟨some "s3", none, none, true, some 0⟩)]
        "a3" "health_check" [] "admin" "cmd_3" ≠ .agentOffline) :=
  ⟨(claim5_amended_submit_checks_flag_only [] "a1" "health_check" [] "admin"
      "cmd_1").1 rfl,
   (claim5_amended_submit_checks_flag_only [("a2", ⟨some "s2", none, none, false, some 0⟩)]
      "a2" "health_check" [] "admin" "cmd_2").2.1 _ rfl rfl,
   ((claim5_amended_submit_checks_flag_only [("a3", ⟨some "s3", none, none, true, some 0⟩)]
      "a3" "health_check" [] "admin" "cmd_3").2.2 _ rfl rfl).1⟩

/-! ## Claims C2 and C10 -/

/-- C2 counterexample: when the collaborator behind `health_check` raises,
`execute` catches the exception and returns the error dict, so `on_command`
emits a single terminal frame of type `"result"` (frame-level
`success: true`) — not the `error` frame the claim requires. -/
theorem claim2_counterexample :
    (onCommand (fun _ => ([], .raises "boom")) "agent1"
        ⟨some "c1", some "health_check", []⟩
      = [mkResultFrame "agent1" (some "c1") (caughtDict "boom")])
  ∧ (mkResultFrame "agent1" (some "c1") (caughtDict "boom")).ftype = "result"
  ∧ ("result" : String) ≠ "error" :=
  ⟨rfl, rfl, by decide⟩

/-- C2 amended: for every command whose executor body raises — a
collaborator raise behind any command type, including the parameter-gated
`force_uninstall` / `kill_process` branches — the agent emits the progress
frames followed by exactly one terminal frame, and that frame is a
`result` frame (type `"result"`, frame-level `success: true`) whose data
is the caught-error dict `{"error": msg, "success": false}`; no `error`
frame is emitted (the `error` frame path fires only when decryption,
parsing or the handler call itself raises). -/
theorem claim2_amended_raise_yields_result_frame
    (collab : Collab) (aid : String) (cmd : AgentCommand)
    (ps : List JVal) (m : String)
    (hbody : executeBody collab cmd = (ps, .raises m)) :
    (onCommand collab aid cmd
      = ps.map (mkProgressFrame aid cmd.cid)
        ++ [mkResultFrame aid cmd.cid (caughtDict m)])
  ∧ ((onCommand collab aid cmd).filter isTerminal).length = 1
  ∧ (∀ f ∈ onCommand collab aid cmd, f.ftype ≠ "error") := by
  have hrun : executeRun collab cmd = (ps, .ok (caughtDict m)) := by
    rw [executeRun, hbody]
  have hfr : onCommand collab aid cmd
      = ps.map (mkProgressFrame aid cmd.cid)
        ++ [mkResultFrame aid cmd.cid (caughtDict m)] := by
    rw [onCommand, hrun]
  refine ⟨hfr, ?_, ?_⟩
  · rw [hfr, List.filter_append]
    have hp : (ps.map (mkProgressFrame aid cmd.cid)).filter isTerminal = [] := by
      induction ps with
      | nil => rfl
      | cons a t ih => simp [mkProgressFrame, isTerminal, ih]
    rw [hp]
    rfl
  · intro f hf
    rw [hfr] at hf
    rcases List.mem_append.1 hf with h | h
    · obtain ⟨d, _, rfl⟩ := List.mem_map.1 h
      simp [mkProgressFrame]
    · rw [List.mem_singleton] at h
      subst h
      simp [mkResultFrame]

/-- C2 witness: the amended statement evaluated for a `kill_process`
command (a parameter-gated branch) whose collaborator emits one progress
payload and then raises. -/
theorem claim2_witness :
    (onCommand (fun _ => ([JVal.jn 1], .raises "x")) "a"
        ⟨some "c", some "kill_process", [("process_name", .js "evil.exe")]⟩
      = [mkProgressFrame "a" (some "c") (JVal.jn 1)]
        ++ [mkResultFrame "a" (some "c") (caughtDict "x")])
  ∧ ((onCommand (fun _ => ([JVal.jn 1], .raises "x")) "a"
        ⟨some "c", some "kill_process",
          [("process_name", .js "evil.exe")]⟩).filter isTerminal).length = 1
  ∧ (∀ f ∈ onCommand (fun _ => ([JVal.jn 1], .raises "x")) "a"
        ⟨some "c", some "kill_process", [("process_name", .js "evil.exe")]⟩,
      f.ftype ≠ "error") :=
  claim2_amended_raise_yields_result_frame
    (fun _ => ([JVal.jn 1], .raises "x")) "a"
    ⟨some "c", some "kill_process", [("process_name", .js "evil.exe")]⟩
    [JVal.jn 1] "x" rfl

/-- C10: `CommandExecutor.execute` is total at its interface — it always
returns a value (the `except Exception` wrapper converts any raise from
the body into a returned dict); an unknown command type returns the
unknown-command error dict; a raising body returns
`{"error": msg, "success": false}`; and when every collaborator returns
dicts, the executor's return value is always a dict. -/
theorem claim10_execute_total (collab : Collab) (cmd : AgentCommand) :
    (∃ v, (executeRun collab cmd).2 = .ok v)
  ∧ (directTypes.contains (cmdTypeStr cmd) = false →
      cmdTypeStr cmd ≠ "force_uninstall" → cmdTypeStr cmd ≠ "kill_process" →
      (executeRun collab cmd).2 = .ok (unknownDict (cmdTypeStr cmd)))
  ∧ (∀ ps m, executeBody collab cmd = (ps, .raises m) →
      (executeRun collab cmd).2 = .ok (caughtDict m))
  ∧ ((∀ t, ∀ v, (collab t).2 = .ok v → v.isObj = true) →
      ∃ v, (executeRun collab cmd).2 = .ok v ∧ v.isObj = true) := by
  refine ⟨?_, ?_, ?_, ?_⟩
  · rcases h : executeBody collab cmd with ⟨ps, out⟩
    cases out with
    | ok v => exact ⟨v, by rw [executeRun, h]⟩
    | raises m => exact ⟨caughtDict m, by rw [executeRun, h]⟩
  · intro h1 h2 h3
    have hbody : executeBody collab cmd = ([], .ok (unknownDict (cmdTypeStr cmd))) := by
      rw [executeBody]
      simp only [h1, if_neg h2, if_neg h3, Bool.false_eq_true, if_false]
    rw [executeRun, hbody]
  · intro ps m h
    rw [executeRun, h]
  · intro hobj
    have key : ∀ ps v, executeBody collab cmd = (ps, .ok v) → v.isObj = true := by
      intro ps v h
      rw [executeBody] at h
      by_cases hd : directTypes.contains (cmdTypeStr cmd) = true
      · rw [if_pos hd] at h
        exact hobj _ v (by rw [h])
      · rw [if_neg hd] at h
        by_cases hfu : cmdTypeStr cmd = "force_uninstall"
        · rw [if_pos hfu] at h
          by_cases hp : getStrParam cmd.params "program_name" = ""
          · rw [if_pos hp] at h
            cases h
            rfl
          · rw [if_neg hp] at h
            exact hobj _ v (by rw [h])
        · rw [if_neg hfu] at h
          by_cases hkp : cmdTypeStr cmd = "kill_process"
          · rw [if_pos hkp] at h
            by_cases hp : getStrParam cmd.params "process_name" = ""
            · rw [if_pos hp] at h
              cases h
              rfl
            · rw [if_neg hp] at h
              exact hobj _ v (by rw [h])
          · rw [if_neg hkp] at h
            cases h
            rfl
    rcases h : executeBody collab cmd with ⟨ps, out⟩
    cases out with
    | ok v => exact ⟨v, by rw [executeRun, h], key ps v h⟩
    | raises m => exact ⟨caughtDict m, by rw [executeRun, h], rfl⟩

/-- C10 witness: an unrecognized type returns the unknown-command dict,
and a raising collaborator's message comes back as a returned error dict. -/
theorem claim10_witness :
    ((executeRun (fun _ => ([], .ok (.jobj []))) ⟨some "c", some "bogus", []⟩).2
      = .ok (unknownDict "bogus"))
  ∧ ((executeRun (fun _ => ([], .raises "kaput")) ⟨some "c", some "sys_fix", []⟩).2
      = .ok (caughtDict "kaput")) :=
  ⟨(claim10_execute_total (fun _ => ([], .ok (.jobj [])))
      ⟨some "c", some "bogus", []⟩).2.1 rfl (by decide) (by decide),
   (claim10_execute_total (fun _ => ([], .raises "kaput"))
      ⟨some "c", some "sys_fix", []⟩).2.2.1 [] "kaput" rfl⟩

/-! ## Codec lemmas: base64 -/

/-- Decoding an alphabet character recovers its sextet. -/
theorem dchar_echar : ∀ s : Nat, s < 64 → dchar (echar s) = s := by decide

/-- No alphabet character is the pad character `=` (61). -/
theorem echar_ne_61 : ∀ s : Nat, s < 64 → echar s ≠ 61 := by decide

/-- Base64 roundtrip, fuelled form: decoding the encoding of any byte list
recovers it. -/
theorem b64_roundtrip_aux :
    ∀ n : Nat, ∀ l : List Nat, l.length ≤ n → (∀ x ∈ l, x < 256) →
      b64decodeBytes (b64encodeBytes l) = l := by
  intro n
  induction n with
  | zero =>
    intro l hl _
    have h : l = [] := List.length_eq_zero.mp (Nat.le_zero.mp hl)
    subst h
    rfl
  | succ n ih =>
    intro l hl hb
    rcases l with _ | ⟨b0, _ | ⟨b1, _ | ⟨b2, rest⟩⟩⟩
    · rfl
    · have h0 : b0 < 256 := hb _ (by simp)
      show b64decodeBytes [echar (b0 / 4), echar (b0 % 4 * 16), 61, 61] = [b0]
      rw [b64decodeBytes, if_pos rfl]
      rw [dchar_echar _ (by omega), dchar_echar _ (by omega)]
      have : b0 / 4 * 4 + b0 % 4 * 16 / 16 = b0 := by omega
      rw [this]
    · have h0 : b0 < 256 := hb _ (by simp)
      have h1 : b1 < 256 := hb _ (by simp)
      show b64decodeBytes
        [echar (b0 / 4), echar (b0 % 4 * 16 + b1 / 16), echar (b1 % 16 * 4), 61]
        = [b0, b1]
      rw [b64decodeBytes, if_neg (echar_ne_61 _ (by omega)), if_pos rfl]
      rw [dchar_echar _ (by omega), dchar_echar _ (by omega), dchar_echar _ (by omega)]
      have e0 : b0 / 4 * 4 + (b0 % 4 * 16 + b1 / 16) / 16 = b0 := by omega
      have e1 : (b0 % 4 * 16 + b1 / 16) % 16 * 16 + b1 % 16 * 4 / 4 = b1 := by omega
      rw [e0, e1]
    · have h0 : b0 < 256 := hb _ (by simp)
      have h1 : b1 < 256 := hb _ (by simp)
      have h2 : b2 < 256 := hb _ (by simp)
      show b64decodeBytes (echar (b0 / 4) :: echar (b0 % 4 * 16 + b1 / 16)
          :: echar (b1 % 16 * 4 + b2 / 64) :: echar (b2 % 64)
          :: b64encodeBytes rest)
        = b0 :: b1 :: b2 :: rest
      rw [b64decodeBytes, if_neg (echar_ne_61 _ (by omega)),
        if_neg (echar_ne_61 _ (by omega))]
      rw [dchar_echar _ (by omega), dchar_echar _ (by omega),
        dchar_echar _ (by omega), dchar_echar _ (by omega)]
      have hrest : b64decodeBytes (b64encodeBytes rest) = rest := by
        refine ih rest ?_ fun x hx => hb x (by simp [hx])
        simp only [List.length_cons] at hl
        omega
      rw [hrest]
      have e0 : b0 / 4 * 4 + (b0 % 4 * 16 + b1 / 16) / 16 = b0 := by omega
      have e1 : (b0 % 4 * 16 + b1 / 16) % 16 * 16 + (b1 % 16 * 4 + b2 / 64) / 4 = b1 := by
        omega
      have e2 : (b1 % 16 * 4 + b2 / 64) % 4 * 64 + b2 % 64 = b2 := by omega
      rw [e0, e1, e2]

/-- Base64 roundtrip: decoding the encoding of any byte list recovers it. -/
theorem b64_roundtrip (l : List Nat) (hb : ∀ x ∈ l, x < 256) :
    b64decodeBytes (b64encodeBytes l) = l :=
  b64_roundtrip_aux l.length l le_rfl hb

/-! ## Codec lemmas: PKCS#7 padding -/

/-- Unpadding inverts padding. -/
theorem unpad_pad (l : List Nat) : unpadPKCS7 (padPKCS7 l) = some l := by
  have hn1 : 1 ≤ 16 - l.length % 16 := by omega
  have hn16 : 16 - l.length % 16 ≤ 16 := by omega
  set n := 16 - l.length % 16 with hn
  have hlen : (padPKCS7 l).length = l.length + n := by
    simp [padPKCS7]
  have hpad : padPKCS7 l = l ++ List.replicate n n := rfl
  rw [unpadPKCS7]
  rw [if_neg (by omega), if_neg ?hmod]
  case hmod =>
    rw [hlen]
    omega
  have hlast : (padPKCS7 l).getLast? = some n := by
    rw [hpad, List.getLast?_append_of_ne_nil _ (by simp [hn1]; omega)]
    rw [show n = (n - 1) + 1 from by omega]
    exact List.getLast?_replicate _ _
  rw [hlast]
  simp only [Option.getD_some]
  rw [if_neg (by omega)]
  have hdrop : (padPKCS7 l).drop ((padPKCS7 l).length - n) = List.replicate n n := by
    rw [hlen, hpad, Nat.add_sub_cancel, List.drop_left]
  rw [if_pos hdrop, hlen, Nat.add_sub_cancel, hpad, List.take_left]

/-! ## Codec lemmas: XOR and single-byte corruption -/

/-- Byte-wise XOR keeps bytes below 256. -/
theorem xorBytes_lt : ∀ a b : List Nat, (∀ x ∈ a, x < 256) → (∀ x ∈ b, x < 256) →
    ∀ x ∈ xorBytes a b, x < 256 := by
  intro a
  induction a with
  | nil => intro b _ _ x hx; simp [xorBytes] at hx
  | cons y ys ih =>
    intro b ha hb x hx
    cases b with
    | nil => simp [xorBytes] at hx
    | cons z zs =>
      have hx2 : x = y ^^^ z ∨ x ∈ xorBytes ys zs := List.mem_cons.1 hx
      rcases hx2 with hx2 | hx2
      · subst hx2
        have h8 : (256 : Nat) = 2 ^ 8 := by norm_num
        rw [h8]
        exact Nat.xor_lt_two_pow (h8 ▸ ha y (by simp)) (h8 ▸ hb z (by simp))
      · exact ih zs (fun u hu => ha u (by simp [hu])) (fun u hu => hb u (by simp [hu])) x hx2

/-- Length of a byte-wise XOR. -/
theorem xorBytes_length (a b : List Nat) :
    (xorBytes a b).length = min a.length b.length :=
  List.length_zipWith _ a b

/-- XORing twice with the same list cancels. -/
theorem xorBytes_cancel : ∀ a p : List Nat, a.length = p.length →
    xorBytes (xorBytes a p) p = a := by
  intro a
  induction a with
  | nil =>
    intro p h
    rfl
  | cons x xs ih =>
    intro p h
    cases p with
    | nil => simp at h
    | cons y ys =>
      show (x ^^^ y ^^^ y) :: xorBytes (xorBytes xs ys) ys = x :: xs
      rw [Nat.xor_cancel_right, ih ys (by simpa using h)]

/-- XORing with a copy of `p` whose byte `k` was XORed with `v` recovers
`a` with its byte `k` XORed with `v`. -/
theorem xorBytes_flip_right : ∀ (a p : List Nat) (k v : Nat),
    a.length = p.length → k < a.length →
    xorBytes (xorBytes a p) (flipByte k v p) = flipByte k v a := by
  intro a
  induction a with
  | nil =>
    intro p k v _ hk
    simp at hk
  | cons x xs ih =>
    intro p k v h hk
    cases p with
    | nil => simp at h
    | cons y ys =>
      cases k with
      | zero =>
        show (x ^^^ y ^^^ (y ^^^ v)) :: xorBytes (xorBytes xs ys) ys
          = (x ^^^ v) :: xs
        rw [Nat.xor_assoc x y (y ^^^ v), ← Nat.xor_assoc y y v, Nat.xor_self,
          Nat.zero_xor, xorBytes_cancel xs ys (by simpa using h)]
      | succ k =>
        show (x ^^^ y ^^^ y) :: xorBytes (xorBytes xs ys) (flipByte k v ys)
          = x :: flipByte k v xs
        rw [Nat.xor_cancel_right,
          ih ys k v (by simpa using h) (by simpa using hk)]

/-- Corrupting one byte preserves the list length. -/
theorem flipByte_length (k v : Nat) (l : List Nat) :
    (flipByte k v l).length = l.length :=
  List.length_set l k _

/-- A default-0 lookup in a byte list is below 256. -/
theorem getD_lt (l : List Nat) (k : Nat) (hb : ∀ x ∈ l, x < 256) :
    l.getD k 0 < 256 := by
  by_cases h : k < l.length
  · rw [List.getD_eq_getElem l 0 h]
    exact hb _ (l.getElem_mem h)
  · rw [List.getD_eq_default l 0 (by omega)]
    omega

/-- Corrupting one byte with `v < 256` keeps bytes below 256. -/
theorem flipByte_lt (k v : Nat) (l : List Nat) (hb : ∀ x ∈ l, x < 256)
    (hv : v < 256) : ∀ x ∈ flipByte k v l, x < 256 := by
  intro x hx
  rcases List.mem_or_eq_of_mem_set hx with h | h
  · exact hb x h
  · subst h
    have h8 : (256 : Nat) = 2 ^ 8 := by norm_num
    rw [h8]
    exact Nat.xor_lt_two_pow (h8 ▸ getD_lt l k hb) (h8 ▸ hv)

/-- Corrupting a byte inside the left part of an append corrupts the left
part. -/
theorem flipByte_append_left (k v : Nat) (l1 l2 : List Nat)
    (hk : k < l1.length) :
    flipByte k v (l1 ++ l2) = flipByte k v l1 ++ l2 := by
  rw [flipByte, flipByte, List.set_append_left _ _ hk]
  congr 2
  simp [List.getD_eq_getElem?_getD, List.getElem?_append_left hk]

/-- Corrupting a byte with a nonzero mask changes the list. -/
theorem flipByte_ne (k v : Nat) (l : List Nat) (hk : k < l.length)
    (hv : v ≠ 0) : flipByte k v l ≠ l := by
  intro h
  have h1 : (flipByte k v l).getD k 0 = l.getD k 0 := by rw [h]
  rw [flipByte, List.getD_eq_getElem?_getD, List.getElem?_set_self hk,
    Option.getD_some] at h1
  have h2 := congrArg (fun z => l.getD k 0 ^^^ z) h1
  simp only at h2
  rw [← Nat.xor_assoc, Nat.xor_self, Nat.zero_xor] at h2
  exact hv h2

/-! ## Codec lemmas: blocks -/

/-- Chunking a block-aligned list: concatenating the chunks gives the list
back, every chunk has length 16 and chunk elements come from the list. -/
theorem chunk16_props : ∀ (fuel : Nat) (l : List Nat), l.length ≤ fuel →
    l.length % 16 = 0 →
    concatBlocks (chunk16 fuel l) = l
    ∧ ∀ b ∈ chunk16 fuel l, b.length = 16 ∧ ∀ x ∈ b, x ∈ l := by
  intro fuel
  induction fuel with
  | zero =>
    intro l hl _
    have h : l = [] := List.length_eq_zero.mp (Nat.le_zero.mp hl)
    subst h
    exact ⟨rfl, by simp [chunk16]⟩
  | succ fuel ih =>
    intro l hl hmod
    rcases l with _ | ⟨x, xs⟩
    · exact ⟨rfl, by simp [chunk16]⟩
    · simp only [List.length_cons] at hl hmod
      have hstep : chunk16 (fuel + 1) (x :: xs)
          = (x :: xs).take 16 :: chunk16 fuel ((x :: xs).drop 16) := rfl
      have hdl : ((x :: xs).drop 16).length = xs.length + 1 - 16 := by
        simp
      have ihd := ih ((x :: xs).drop 16)
        (by rw [hdl]; omega)
        (by rw [hdl]; omega)
      constructor
      · rw [hstep]
        show (x :: xs).take 16 ++ concatBlocks (chunk16 fuel ((x :: xs).drop 16))
          = x :: xs
        rw [ihd.1, List.take_append_drop]
      · intro b hb
        rw [hstep] at hb
        rcases List.mem_cons.1 hb with h | h
        · subst h
          refine ⟨by simp [List.length_take]; omega, fun u hu => List.take_subset _ _ hu⟩
        · obtain ⟨hb16, hbm⟩ := ihd.2 b h
          exact ⟨hb16, fun u hu => List.drop_subset _ _ (hbm u hu)⟩

/-- Length of a concatenation of 16-byte blocks. -/
theorem concatBlocks_length : ∀ bs : List (List Nat),
    (∀ b ∈ bs, b.length = 16) → (concatBlocks bs).length = 16 * bs.length := by
  intro bs
  induction bs with
  | nil => intro _; rfl
  | cons b rest ih =>
    intro h
    show (b ++ concatBlocks rest).length = 16 * (rest.length + 1)
    rw [List.length_append, h b (by simp), ih fun u hu => h u (by simp [hu])]
    ring

/-- Elements of concatenated blocks come from some block. -/
theorem mem_concatBlocks : ∀ (bs : List (List Nat)) (x : Nat),
    x ∈ concatBlocks bs → ∃ b ∈ bs, x ∈ b := by
  intro bs
  induction bs with
  | nil => intro x hx; simp [concatBlocks] at hx
  | cons b rest ih =>
    intro x hx
    rcases List.mem_append.1 hx with h | h
    · exact ⟨b, by simp, h⟩
    · obtain ⟨c, hc, hxc⟩ := ih x h
      exact ⟨c, by simp [hc], hxc⟩

/-- Re-chunking a concatenation of 16-byte blocks gives the blocks back
(fuelled form). -/
theorem toBlocks_concat_aux : ∀ (fuel : Nat) (bs : List (List Nat)),
    (∀ b ∈ bs, b.length = 16) → (concatBlocks bs).length ≤ fuel →
    chunk16 fuel (concatBlocks bs) = bs := by
  intro fuel
  induction fuel with
  | zero =>
    intro bs hb hl
    cases bs with
    | nil => rfl
    | cons b rest =>
      exfalso
      have h16 := hb b (by simp)
      have := concatBlocks_length (b :: rest) hb
      simp only [List.length_cons] at this
      omega
  | succ fuel ih =>
    intro bs hb hl
    cases bs with
    | nil => rfl
    | cons b rest =>
      have h16 := hb b (by simp)
      obtain ⟨y, ys, rfl⟩ : ∃ y ys, b = y :: ys := by
        cases b with
        | nil => simp at h16
        | cons y ys => exact ⟨y, ys, rfl⟩
      have hcons : concatBlocks ((y :: ys) :: rest)
          = y :: (ys ++ concatBlocks rest) := rfl
      rw [hcons]
      have hstep : chunk16 (fuel + 1) (y :: (ys ++ concatBlocks rest))
          = (y :: (ys ++ concatBlocks rest)).take 16
            :: chunk16 fuel ((y :: (ys ++ concatBlocks rest)).drop 16) := rfl
      rw [hstep, ← hcons]
      have htake : (concatBlocks ((y :: ys) :: rest)).take 16 = y :: ys := by
        rw [hcons]
        show ((y :: ys) ++ concatBlocks rest).take 16 = y :: ys
        rw [show (16 : Nat) = (y :: ys).length from h16.symm, List.take_left]
      have hdrop : (concatBlocks ((y :: ys) :: rest)).drop 16 = concatBlocks rest := by
        rw [hcons]
        show ((y :: ys) ++ concatBlocks rest).drop 16 = concatBlocks rest
        rw [show (16 : Nat) = (y :: ys).length from h16.symm, List.drop_left]
      rw [htake, hdrop]
      congr 1
      refine ih rest (fun u hu => hb u (by simp [hu])) ?_
      have hcl := concatBlocks_length ((y :: ys) :: rest) hb
      have hcl2 := concatBlocks_length rest fun u hu => hb u (by simp [hu])
      simp only [List.length_cons] at hcl
      omega

/-- Re-chunking a concatenation of 16-byte blocks gives the blocks back. -/
theorem toBlocks_concat (bs : List (List Nat)) (hb : ∀ b ∈ bs, b.length = 16) :
    toBlocks (concatBlocks bs) = bs :=
  toBlocks_concat_aux _ bs hb le_rfl

/-! ## Codec lemmas: CBC -/

/-- Every ciphertext block produced by CBC encryption is a well-formed
16-byte block with bytes below 256. -/
theorem cbcEnc_wf (bc : BlockCipher) : ∀ (bs : List (List Nat)) (prev : List Nat),
    prev.length = 16 → (∀ x ∈ prev, x < 256) →
    (∀ b ∈ bs, b.length = 16 ∧ ∀ x ∈ b, x < 256) →
    ∀ c ∈ cbcEnc bc.enc prev bs, c.length = 16 ∧ ∀ x ∈ c, x < 256 := by
  intro bs
  induction bs with
  | nil =>
    intro prev _ _ _ c hc
    simp [cbcEnc] at hc
  | cons b rest ih =>
    intro prev hp hplt hbs c hc
    obtain ⟨hb16, hblt⟩ := hbs b (by simp)
    have hxlen : (xorBytes b prev).length = 16 := by
      rw [xorBytes_length, hb16, hp]
      rfl
    have hxlt : ∀ x ∈ xorBytes b prev, x < 256 := xorBytes_lt b prev hblt hplt
    have hclen : (bc.enc (xorBytes b prev)).length = 16 := bc.enc_len _ hxlen
    have hclt : ∀ x ∈ bc.enc (xorBytes b prev), x < 256 :=
      bc.enc_lt _ hxlen hxlt
    have hstep : cbcEnc bc.enc prev (b :: rest)
        = bc.enc (xorBytes b prev)
          :: cbcEnc bc.enc (bc.enc (xorBytes b prev)) rest := rfl
    rw [hstep] at hc
    rcases List.mem_cons.1 hc with h | h
    · subst h
      exact ⟨hclen, hclt⟩
    · exact ih _ hclen hclt (fun u hu => hbs u (by simp [hu])) c h

/-- CBC decryption inverts CBC encryption when started from the same IV. -/
theorem cbcDec_cbcEnc (bc : BlockCipher) : ∀ (bs : List (List Nat)) (prev : List Nat),
    prev.length = 16 → (∀ b ∈ bs, b.length = 16) →
    cbcDec bc.dec prev (cbcEnc bc.enc prev bs) = bs := by
  intro bs
  induction bs with
  | nil => intro prev _ _; rfl
  | cons b rest ih =>
    intro prev hp hbs
    have hb16 : b.length = 16 := hbs b (by simp)
    have hxlen : (xorBytes b prev).length = 16 := by
      rw [xorBytes_length, hb16, hp]
      rfl
    have hstep : cbcDec bc.dec prev (cbcEnc bc.enc prev (b :: rest))
        = xorBytes (bc.dec (bc.enc (xorBytes b prev))) prev
          :: cbcDec bc.dec (bc.enc (xorBytes b prev))
              (cbcEnc bc.enc (bc.enc (xorBytes b prev)) rest) := rfl
    rw [hstep, bc.dec_enc _ hxlen,
      xorBytes_cancel b prev (by rw [hb16, hp]),
      ih _ (bc.enc_len _ hxlen) fun u hu => hbs u (by simp [hu])]

/-- CBC decryption of a CBC encryption started from a different IV: only
the first plaintext block is affected, by the XOR of the two IVs. -/
theorem cbcDec_cbcEnc_iv (bc : BlockCipher) (b : List Nat)
    (rest : List (List Nat)) (iv iv2 : List Nat)
    (hiv : iv.length = 16) (hb16 : b.length = 16)
    (hrest : ∀ u ∈ rest, u.length = 16) :
    cbcDec bc.dec iv2 (cbcEnc bc.enc iv (b :: rest))
      = xorBytes (xorBytes b iv) iv2 :: rest := by
  have hxlen : (xorBytes b iv).length = 16 := by
    rw [xorBytes_length, hb16, hiv]
    rfl
  have hstep : cbcDec bc.dec iv2 (cbcEnc bc.enc iv (b :: rest))
      = xorBytes (bc.dec (bc.enc (xorBytes b iv))) iv2
        :: cbcDec bc.dec (bc.enc (xorBytes b iv))
            (cbcEnc bc.enc (bc.enc (xorBytes b iv)) rest) := rfl
  rw [hstep, bc.dec_enc _ hxlen,
    cbcDec_cbcEnc bc rest _ (bc.enc_len _ hxlen) hrest]

/-- Padding keeps bytes below 256. -/
theorem pad_lt (m : List Nat) (hmb : ∀ x ∈ m, x < 256) :
    ∀ x ∈ padPKCS7 m, x < 256 := by
  intro x hx
  rcases List.mem_append.1 hx with h | h
  · exact hmb x h
  · rw [List.eq_of_mem_replicate h]
    omega

/-- The padded length is block-aligned. -/
theorem pad_mod (m : List Nat) : (padPKCS7 m).length % 16 = 0 := by
  simp only [padPKCS7, List.length_append, List.length_replicate]
  omega

/-- The blocks of a padded plaintext are well-formed 16-byte blocks with
bytes below 256. -/
theorem padBlocks_wf (m : List Nat) (hmb : ∀ x ∈ m, x < 256) :
    ∀ b ∈ toBlocks (padPKCS7 m), b.length = 16 ∧ ∀ u ∈ b, u < 256 := by
  intro b hb
  obtain ⟨_, hprops⟩ :=
    chunk16_props (padPKCS7 m).length (padPKCS7 m) le_rfl (pad_mod m)
  exact ⟨(hprops b hb).1, fun u hu => pad_lt m hmb u ((hprops b hb).2 u hu)⟩

/-- Base64-decoding an envelope recovers the raw IV-plus-ciphertext. -/
theorem encrypt_decode (bc : BlockCipher) (iv m : List Nat)
    (hiv : iv.length = 16) (hivb : ∀ x ∈ iv, x < 256)
    (hmb : ∀ x ∈ m, x < 256) :
    b64decodeBytes (encryptE bc.enc iv m)
      = iv ++ concatBlocks (cbcEnc bc.enc iv (toBlocks (padPKCS7 m))) := by
  rw [encryptE]
  refine b64_roundtrip _ ?_
  intro x hx
  rcases List.mem_append.1 hx with h | h
  · exact hivb x h
  · obtain ⟨c, hc, hxc⟩ := mem_concatBlocks _ x h
    exact ((cbcEnc_wf bc _ iv hiv hivb (padBlocks_wf m hmb)) c hc).2 x hxc

/-! ## Claim C3 -/

/-- C3: decrypting an envelope produced by `encrypt` under the same key
(with whatever fresh 16-byte IV was drawn) returns exactly the original
plaintext, for every plaintext byte sequence and every block cipher. -/
theorem claim3_decrypt_encrypt (bc : BlockCipher) (iv m : List Nat)
    (hiv : iv.length = 16) (hivb : ∀ x ∈ iv, x < 256)
    (hmb : ∀ x ∈ m, x < 256) :
    decryptE bc.dec (encryptE bc.enc iv m) = some m := by
  have hwf := padBlocks_wf m hmb
  have hbl : ∀ b ∈ toBlocks (padPKCS7 m), b.length = 16 := fun b hb => (hwf b hb).1
  have hctwf := cbcEnc_wf bc (toBlocks (padPKCS7 m)) iv hiv hivb hwf
  have hctbl : ∀ c ∈ cbcEnc bc.enc iv (toBlocks (padPKCS7 m)), c.length = 16 :=
    fun c hc => (hctwf c hc).1
  have hdec := encrypt_decode bc iv m hiv hivb hmb
  simp only [decryptE]
  rw [hdec]
  have hctlen : (concatBlocks (cbcEnc bc.enc iv (toBlocks (padPKCS7 m)))).length
      = 16 * (cbcEnc bc.enc iv (toBlocks (padPKCS7 m))).length :=
    concatBlocks_length _ hctbl
  have hlen : (iv ++ concatBlocks (cbcEnc bc.enc iv (toBlocks (padPKCS7 m)))).length
      = 16 + (concatBlocks (cbcEnc bc.enc iv (toBlocks (padPKCS7 m)))).length := by
    rw [List.length_append, hiv]
  rw [if_neg (by omega)]
  have htake : (iv ++ concatBlocks (cbcEnc bc.enc iv (toBlocks (padPKCS7 m)))).take 16
      = iv := by
    rw [show (16 : Nat) = iv.length from hiv.symm]
    exact List.take_left iv _
  have hdrop : (iv ++ concatBlocks (cbcEnc bc.enc iv (toBlocks (padPKCS7 m)))).drop 16
      = concatBlocks (cbcEnc bc.enc iv (toBlocks (padPKCS7 m))) := by
    rw [show (16 : Nat) = iv.length from hiv.symm]
    exact List.drop_left iv _
  rw [htake, hdrop]
  rw [if_neg (by rw [hctlen]; omega)]
  rw [toBlocks_concat _ hctbl]
  rw [cbcDec_cbcEnc bc _ iv hiv hbl]
  have hcb : concatBlocks (toBlocks (padPKCS7 m)) = padPKCS7 m :=
    (chunk16_props (padPKCS7 m).length _ le_rfl (pad_mod m)).1
  rw [hcb]
  exact unpad_pad m

/-- C3 witness: the roundtrip evaluated with the identity block
permutation, a concrete IV and the two-byte plaintext `"hi"`. -/
theorem claim3_witness :
    decryptE idCipher.dec (encryptE idCipher.enc (List.replicate 16 0) [104, 105])
      = some [104, 105] :=
  claim3_decrypt_encrypt idCipher (List.replicate 16 0) [104, 105]
    (by decide) (by decide) (by decide)

/-! ## Claim C9 -/

/-- C9: two encryptions of the same plaintext under the same key whose
fresh IVs differ produce different base64 envelopes. -/
theorem claim9_distinct_iv_distinct_envelopes (bc : BlockCipher)
    (iv1 iv2 m : List Nat)
    (h1 : iv1.length = 16) (h2 : iv2.length = 16)
    (hb1 : ∀ x ∈ iv1, x < 256) (hb2 : ∀ x ∈ iv2, x < 256)
    (hmb : ∀ x ∈ m, x < 256) (hne : iv1 ≠ iv2) :
    encryptE bc.enc iv1 m ≠ encryptE bc.enc iv2 m := by
  intro heq
  have d1 := encrypt_decode bc iv1 m h1 hb1 hmb
  have d2 := encrypt_decode bc iv2 m h2 hb2 hmb
  rw [heq, d2] at d1
  have e1 : (iv1 ++ concatBlocks (cbcEnc bc.enc iv1 (toBlocks (padPKCS7 m)))).take 16
      = iv1 := by
    rw [show (16 : Nat) = iv1.length from h1.symm]
    exact List.take_left _ _
  have e2 : (iv2 ++ concatBlocks (cbcEnc bc.enc iv2 (toBlocks (padPKCS7 m)))).take 16
      = iv2 := by
    rw [show (16 : Nat) = iv2.length from h2.symm]
    exact List.take_left _ _
  exact hne (by rw [← e1, ← d1, e2])

/-- C9 witness: under the identity block permutation, the all-zero and
all-one IVs give different envelopes for the plaintext `"h"`. -/
theorem claim9_witness :
    encryptE idCipher.enc (List.replicate 16 0) [104]
      ≠ encryptE idCipher.enc (List.replicate 16 1) [104] :=
  claim9_distinct_iv_distinct_envelopes idCipher
    (List.replicate 16 0) (List.replicate 16 1) [104]
    (by decide) (by decide) (by decide) (by decide) (by decide) (by decide)

/-! ## Claim C4 -/

/-- Chunking does not depend on the fuel once it covers the list length. -/
theorem chunk16_fuel_eq : ∀ (f1 f2 : Nat) (l : List Nat),
    l.length ≤ f1 → l.length ≤ f2 → chunk16 f1 l = chunk16 f2 l := by
  intro f1
  induction f1 with
  | zero =>
    intro f2 l hl1 _
    have h : l = [] := List.length_eq_zero.mp (Nat.le_zero.mp hl1)
    subst h
    cases f2 <;> rfl
  | succ f1 ih =>
    intro f2 l hl1 hl2
    rcases l with _ | ⟨x, xs⟩
    · cases f2 <;> rfl
    · simp only [List.length_cons] at hl1 hl2
      rcases f2 with _ | f2
      · omega
      · show (x :: xs).take 16 :: chunk16 f1 ((x :: xs).drop 16)
          = (x :: xs).take 16 :: chunk16 f2 ((x :: xs).drop 16)
        have hdl : ((x :: xs).drop 16).length = xs.length + 1 - 16 := by simp
        rw [ih f2 _ (by rw [hdl]; omega) (by rw [hdl]; omega)]

/-- The blocks of a nonempty list are its first 16 bytes followed by the
blocks of the rest. -/
theorem toBlocks_cons (l : List Nat) (h : l ≠ []) :
    toBlocks l = l.take 16 :: toBlocks (l.drop 16) := by
  rcases l with _ | ⟨x, xs⟩
  · exact absurd rfl h
  · show chunk16 (x :: xs).length (x :: xs) = _
    have hstep : chunk16 (x :: xs).length (x :: xs)
        = (x :: xs).take 16 :: chunk16 xs.length ((x :: xs).drop 16) := rfl
    rw [hstep]
    congr 1
    have hdl : ((x :: xs).drop 16).length = xs.length + 1 - 16 := by simp
    exact chunk16_fuel_eq xs.length _ _ (by rw [hdl]; omega) le_rfl

/-- The padded plaintext is never empty. -/
theorem pad_ne_nil (m : List Nat) : padPKCS7 m ≠ [] := by
  intro h
  have := congrArg List.length h
  simp only [padPKCS7, List.length_append, List.length_replicate,
    List.length_nil] at this
  omega

/-- C4 counterexample: for the 16-byte plaintext of `'a'`s encrypted under
the all-zero IV, flipping one bit of the first envelope character (the
`'A'`, code 65, becomes `'C'`, code 67 = 65 XOR 2 — a change inside the
encoded IV) makes the full `decrypt` (UTF-8 decode step included) succeed
and return a plaintext that differs from the original in one bit, instead
of failing with `CryptoError`. -/
theorem claim4_counterexample :
    ((encryptE idCipher.enc (List.replicate 16 0) (List.replicate 16 97)).getD 0 0
      = 65)
  ∧ ((67 : Nat) = 65 ^^^ 2)
  ∧ (decryptStr idCipher.dec
      ((encryptE idCipher.enc (List.replicate 16 0)
        (List.replicate 16 97)).set 0 67)
      = some (105 :: List.replicate 15 97))
  ∧ (105 :: List.replicate 15 97 ≠ List.replicate 16 97) :=
  ⟨rfl, rfl, rfl, by decide⟩

/-- C4 amended: not every single-bit corruption of an envelope fails.  A
corruption of the envelope text that flips one bit (bit `j` of byte `k`)
of the decoded IV leaves the CBC padding intact whenever the padded
plaintext spans at least two blocks: the cipher layer then succeeds and
yields the plaintext with the corresponding bit of its first block
flipped — different from the original — and the full `decrypt` returns
exactly that plaintext whenever those bytes are still valid UTF-8 (for
example a low bit of an ASCII byte), failing only in the final
`decode('utf-8')` otherwise, never with the claimed padding
`CryptoError`. -/
theorem claim4_amended_iv_flip_decrypts (bc : BlockCipher) (iv m : List Nat)
    (k j : Nat) (hiv : iv.length = 16) (hivb : ∀ x ∈ iv, x < 256)
    (hmb : ∀ x ∈ m, x < 256) (hm16 : 16 ≤ m.length) (hk : k < 16) (hj : j < 8) :
    (decryptE bc.dec (b64encodeBytes (flipByte k (2 ^ j)
        (b64decodeBytes (encryptE bc.enc iv m))))
      = some (flipByte k (2 ^ j) m))
  ∧ (decryptStr bc.dec (b64encodeBytes (flipByte k (2 ^ j)
        (b64decodeBytes (encryptE bc.enc iv m))))
      = if utf8Valid (flipByte k (2 ^ j) m) then some (flipByte k (2 ^ j) m)
        else none)
  ∧ flipByte k (2 ^ j) m ≠ m := by
  have hv : (2 : Nat) ^ j < 256 := by
    calc (2 : Nat) ^ j ≤ 2 ^ 7 := Nat.pow_le_pow_right (by norm_num) (by omega)
      _ < 256 := by norm_num
  have hv0 : (2 : Nat) ^ j ≠ 0 := (Nat.two_pow_pos j).ne'
  have hwf := padBlocks_wf m hmb
  have hbl : ∀ b ∈ toBlocks (padPKCS7 m), b.length = 16 := fun b hb => (hwf b hb).1
  have hdecomp := toBlocks_cons (padPKCS7 m) (pad_ne_nil m)
  have hPlen : 16 ≤ (padPKCS7 m).length := by
    simp only [padPKCS7, List.length_append, List.length_replicate]
    omega
  have hb016 : ((padPKCS7 m).take 16).length = 16 := by
    rw [List.length_take]
    omega
  have hdec := encrypt_decode bc iv m hiv hivb hmb
  have hflip : flipByte k (2 ^ j)
      (iv ++ concatBlocks (cbcEnc bc.enc iv (toBlocks (padPKCS7 m))))
      = flipByte k (2 ^ j) iv
        ++ concatBlocks (cbcEnc bc.enc iv (toBlocks (padPKCS7 m))) :=
    flipByte_append_left _ _ _ _ (by omega)
  have hctwf := cbcEnc_wf bc _ iv hiv hivb hwf
  have hctbl : ∀ c ∈ cbcEnc bc.enc iv (toBlocks (padPKCS7 m)), c.length = 16 :=
    fun c hc => (hctwf c hc).1
  have hfb : ∀ x ∈ flipByte k (2 ^ j) iv, x < 256 :=
    flipByte_lt _ _ _ hivb hv
  have hrt : b64decodeBytes (b64encodeBytes (flipByte k (2 ^ j) iv
      ++ concatBlocks (cbcEnc bc.enc iv (toBlocks (padPKCS7 m)))))
      = flipByte k (2 ^ j) iv
        ++ concatBlocks (cbcEnc bc.enc iv (toBlocks (padPKCS7 m))) := by
    refine b64_roundtrip _ ?_
    intro x hx
    rcases List.mem_append.1 hx with h | h
    · exact hfb x h
    · obtain ⟨c, hc, hxc⟩ := mem_concatBlocks _ x h
      exact (hctwf c hc).2 x hxc
  have hcore : decryptE bc.dec (b64encodeBytes (flipByte k (2 ^ j)
      (b64decodeBytes (encryptE bc.enc iv m))))
      = some (flipByte k (2 ^ j) m) := by
    rw [hdec, hflip]
    simp only [decryptE]
    rw [hrt]
    have hfl : (flipByte k (2 ^ j) iv).length = 16 := by
      rw [flipByte_length, hiv]
    have hctlen := concatBlocks_length _ hctbl
    have hlen : (flipByte k (2 ^ j) iv
        ++ concatBlocks (cbcEnc bc.enc iv (toBlocks (padPKCS7 m)))).length
        = 16 + (concatBlocks (cbcEnc bc.enc iv (toBlocks (padPKCS7 m)))).length := by
      rw [List.length_append, hfl]
    rw [if_neg (by omega)]
    have htake : (flipByte k (2 ^ j) iv
        ++ concatBlocks (cbcEnc bc.enc iv (toBlocks (padPKCS7 m)))).take 16
        = flipByte k (2 ^ j) iv := by
      rw [show (16 : Nat) = (flipByte k (2 ^ j) iv).length from hfl.symm]
      exact List.take_left _ _
    have hdrop : (flipByte k (2 ^ j) iv
        ++ concatBlocks (cbcEnc bc.enc iv (toBlocks (padPKCS7 m)))).drop 16
        = concatBlocks (cbcEnc bc.enc iv (toBlocks (padPKCS7 m))) := by
      rw [show (16 : Nat) = (flipByte k (2 ^ j) iv).length from hfl.symm]
      exact List.drop_left _ _
    rw [htake, hdrop]
    rw [if_neg (by rw [hctlen]; omega)]
    rw [toBlocks_concat _ hctbl]
    rw [hdecomp]
    have hrestbl : ∀ u ∈ toBlocks ((padPKCS7 m).drop 16), u.length = 16 :=
      fun u hu => hbl u (by rw [hdecomp]; exact List.mem_cons_of_mem _ hu)
    rw [cbcDec_cbcEnc_iv bc ((padPKCS7 m).take 16)
      (toBlocks ((padPKCS7 m).drop 16)) iv (flipByte k (2 ^ j) iv)
      hiv hb016 hrestbl]
    rw [xorBytes_flip_right ((padPKCS7 m).take 16) iv k (2 ^ j)
      (by rw [hb016, hiv]) (by omega)]
    show unpadPKCS7 (flipByte k (2 ^ j) ((padPKCS7 m).take 16)
      ++ concatBlocks (toBlocks ((padPKCS7 m).drop 16)))
      = some (flipByte k (2 ^ j) m)
    have hd16 : ((padPKCS7 m).drop 16).length % 16 = 0 := by
      rw [List.length_drop]
      have := pad_mod m
      omega
    have hconcrest : concatBlocks (toBlocks ((padPKCS7 m).drop 16))
        = (padPKCS7 m).drop 16 :=
      (chunk16_props ((padPKCS7 m).drop 16).length _ le_rfl hd16).1
    rw [hconcrest]
    have happ : flipByte k (2 ^ j) ((padPKCS7 m).take 16)
        ++ (padPKCS7 m).drop 16
        = flipByte k (2 ^ j) (padPKCS7 m) := by
      rw [← flipByte_append_left k (2 ^ j) _ _ (by omega),
        List.take_append_drop]
    rw [happ]
    have hpadflip : flipByte k (2 ^ j) (padPKCS7 m)
        = padPKCS7 (flipByte k (2 ^ j) m) := by
      rw [padPKCS7, padPKCS7, flipByte_length]
      exact flipByte_append_left k (2 ^ j) m _ (by omega)
    rw [hpadflip]
    exact unpad_pad _
  refine ⟨hcore, ?_, flipByte_ne k (2 ^ j) m (by omega) hv0⟩
  rw [decryptStr, hcore]

/-- C4 witness: the amended statement evaluated with the identity block
permutation, the all-zero IV, a 16-byte plaintext and the corruption of
bit 3 of IV byte 0. -/
theorem claim4_witness :
    (decryptE idCipher.dec (b64encodeBytes (flipByte 0 (2 ^ 3)
        (b64decodeBytes (encryptE idCipher.enc (List.replicate 16 0)
          (List.replicate 16 97)))))
      = some (flipByte 0 (2 ^ 3) (List.replicate 16 97)))
  ∧ (decryptStr idCipher.dec (b64encodeBytes (flipByte 0 (2 ^ 3)
        (b64decodeBytes (encryptE idCipher.enc (List.replicate 16 0)
          (List.replicate 16 97)))))
      = if utf8Valid (flipByte 0 (2 ^ 3) (List.replicate 16 97)) then
          some (flipByte 0 (2 ^ 3) (List.replicate 16 97))
        else none)
  ∧ flipByte 0 (2 ^ 3) (List.replicate 16 97) ≠ List.replicate 16 97 :=
  claim4_amended_iv_flip_decrypts idCipher (List.replicate 16 0)
    (List.replicate 16 97) 0 3 (by decide) (by decide) (by decide)
    (by decide) (by decide) (by decide)

end Autonova
